import Mathlib

/-!
Verification development for the subtitle-refinement core
(chunking, cross-chunk memory, terminology merge, prompt assembly).

The definitions below are shallow embeddings of the Python source:
`pairs.py`, `config.py`, `chunker.py`, `memory.py`, `prompts.py`,
`llm_client.py` and the compression step of `main.py`.

External collaborators (the tiktoken token estimator and the LLM
oracles) are modelled as explicit parameters: a token estimator is a
function argument, and an oracle's reply is passed in as data.

Modelling conventions:
* Python `int` is `Int` (loop counters are `Nat`).  Python `float`
  confidence values are only ever compared (`confidence < min_confidence`),
  never computed with, so they are modelled order-faithfully as `Int`
  hundredths of one (`0.9` becomes `90`, the `0.6` threshold becomes `60`).
* Python `str.strip`/`str.casefold` are modelled by `pyStrip`/`pyCasefold`
  below (ASCII whitespace and ASCII case folding, which is exact for the
  ASCII/CJK data this program manipulates).
* Strings are processed as `List Char` (Python indexes strings by
  character position); `String` is used at function boundaries.
* Bounded loops over lists are written with an explicit fuel argument
  (initialised so that it never runs out) where Lean would otherwise
  need well-founded recursion, so that every definition evaluates by
  kernel reduction.
-/

set_option maxRecDepth 8000

namespace SubRefine

/-- Python whitespace class used by `str.strip` / regex `\s`
(space, tab, newline, carriage return, vertical tab, form feed). -/
def isPyWS (c : Char) : Bool :=
  c = ' ' || c = '\t' || c = '\n' || c = '\r' || c = '\x0b' || c = '\x0c'

/-- Remove trailing Python whitespace from a character list. -/
def rstripChars : List Char → List Char
  | [] => []
  | c :: rest =>
    let r := rstripChars rest
    if r = [] ∧ isPyWS c then [] else c :: r

/-- Model of Python `str.strip` on character lists: drop leading and
trailing whitespace. -/
def trimChars (l : List Char) : List Char := rstripChars (l.dropWhile isPyWS)

/-- Model of Python `str.strip` on strings. -/
def pyStrip (s : String) : String := ⟨trimChars s.data⟩

/-- ASCII lower-casing of one character (model of `str.casefold`, which
agrees with ASCII lower-casing on the ASCII/CJK data handled here). -/
def charLower (c : Char) : Char :=
  if 65 ≤ c.toNat ∧ c.toNat ≤ 90 then Char.ofNat (c.toNat + 32) else c

/-- Model of Python `str.casefold`. -/
def pyCasefold (s : String) : String := ⟨s.data.map charLower⟩

/-- Model of Python `str.lstrip`. -/
def pyLstrip (l : List Char) : List Char := l.dropWhile isPyWS

/-- `pairs.py::SubtitlePair`. The optional `meta` map is round-trip data
never read by the chunking/memory/prompt core, so it is omitted here. -/
structure SubtitlePair where
  id : Int
  eng : String
  chinese : String
deriving DecidableEq, Repr

/-- `config.py::Config`, restricted to the fields read by the
chunking/memory core. -/
structure Config where
  pairs_per_chunk : Option Int
  chunk_token_soft_limit : Int
  memory_token_limit : Int
  glossary_max_entries : Int
  glossary_policy : String
  terminology_min_confidence : Int
deriving Repr

/-- Fuel-indexed loop of `chunker.py::chunk_pairs_by_count`
(`for i in range(0, len(pairs), k): chunks.append(pairs[i:i+k])`).
The fuel starts at `pairs.length` and never runs out for `k > 0`. -/
def chunkByCountAux (k : Nat) : Nat → List SubtitlePair → List (List SubtitlePair)
  | 0, _ => []
  | _ + 1, [] => []
  | fuel + 1, p :: rest => (p :: rest).take k :: chunkByCountAux k fuel ((p :: rest).drop k)

/-- `chunker.py::chunk_pairs_by_count`: split into slices of `k` pairs.
The caller guarantees `k > 0` (Python's `range` would raise on step 0;
we return `[]` in that unreachable case). -/
def chunk_pairs_by_count (pairs : List SubtitlePair) (k : Nat) : List (List SubtitlePair) :=
  if k = 0 then [] else chunkByCountAux k pairs.length pairs

/-- The token-budget accumulation loop of `chunker.py::chunk_pairs`
(lines 41-69).  `est` models `utils.estimate_pair_tokens` (the external
tiktoken collaborator); `cur`/`curTok` are `current_chunk` /
`current_chunk_tokens`. -/
def chunkByTokensLoop (est : SubtitlePair → Nat) (maxChunkTokens : Int) :
    List SubtitlePair → List SubtitlePair → Int → List (List SubtitlePair)
  | [], cur, _ => if cur = [] then [] else [cur]
  | p :: rest, cur, curTok =>
    let pt : Int := est p
    if cur ≠ [] ∧ curTok + pt > maxChunkTokens then
      cur :: chunkByTokensLoop est maxChunkTokens rest [p] pt
    else
      chunkByTokensLoop est maxChunkTokens rest (cur ++ [p]) (curTok + pt)

/-- `chunker.py::chunk_pairs`.  The hard-coded `safety_margin = 1000`
("Reserve for JSON formatting overhead") is kept from the source:
`max_chunk_tokens = (chunk_token_soft_limit - base_prompt_tokens) - 1000`. -/
def chunk_pairs (est : SubtitlePair → Nat) (pairs : List SubtitlePair)
    (config : Config) (basePromptTokens : Int) : List (List SubtitlePair) :=
  if pairs = [] then []
  else
    match config.pairs_per_chunk with
    | some n =>
      if 0 < n then chunk_pairs_by_count pairs n.toNat
      else chunkByTokensLoop est (config.chunk_token_soft_limit - basePromptTokens - 1000) pairs [] 0
    | none =>
      chunkByTokensLoop est (config.chunk_token_soft_limit - basePromptTokens - 1000) pairs [] 0

/-- Insertion step for the model of Python's `sorted` on integers. -/
def pySortedInsert (x : Int) : List Int → List Int
  | [] => [x]
  | y :: ys => if x ≤ y then x :: y :: ys else y :: pySortedInsert x ys

/-- Model of Python's `sorted` for lists of integers (ascending). -/
def pySorted (l : List Int) : List Int := l.foldr pySortedInsert []

/-- `chunker.py::validate_chunks`: flatten the chunks, compare lengths,
then compare sorted id lists. -/
def validate_chunks (original_pairs : List SubtitlePair)
    (chunks : List (List SubtitlePair)) : Bool :=
  let chunked_pairs := chunks.flatten
  if chunked_pairs.length ≠ original_pairs.length then false
  else pySorted (original_pairs.map (·.id)) == pySorted (chunked_pairs.map (·.id))

/-! ### Global memory data model (`memory.py`) -/

/-- An authoritative (user) glossary entry: a Python `{"eng": ..., "zh": ...}`
dict, as produced by `prompts.py::split_user_prompt_and_glossary` and
`prompts.py::_parse_template_glossary`. -/
structure GlossEntry where
  eng : String
  zh : String
deriving DecidableEq, Repr

/-- `memory.py::TerminologyEntry` / a learned-glossary dict
(`{"eng", "zh", "type", "confidence", "evidence_ids"}`). -/
structure TermEntry where
  eng : String
  zh : String
  type : String
  confidence : Int
  evidence_ids : List Int
deriving DecidableEq, Repr

/-- `memory.py::GlobalMemory`. -/
structure GlobalMemory where
  user_glossary : List GlossEntry
  glossary : List TermEntry
  style_notes : String
  summary : String
deriving DecidableEq, Repr

/-- `memory.py::init_global_memory`. -/
def init_global_memory : GlobalMemory := ⟨[], [], "", ""⟩

/-- `memory.py::VALID_TERMINOLOGY_TYPES`. -/
def VALID_TERMINOLOGY_TYPES : List String :=
  ["person", "place", "organization", "title", "acronym", "unit", "ship",
   "project", "law", "other"]

/-- A raw glossary item from the terminology oracle's JSON, before
validation: `str()`-coerced text fields plus a confidence that is `none`
when Python's `float()` conversion fails, and the `int()`-convertible
evidence ids. -/
structure RawTerm where
  eng : String
  zh : String
  type : String
  confidence : Option Int
  evidence_ids : List Int
deriving DecidableEq, Repr

/-- Loop of `memory.py::_coerce_evidence_ids`: deduplicate in order and
stop once five ids are collected. -/
def coerceEvidenceLoop : List Int → List Int → List Int
  | [], acc => acc
  | i :: rest, acc =>
    let acc2 := if i ∈ acc then acc else acc ++ [i]
    if 5 ≤ acc2.length then acc2 else coerceEvidenceLoop rest acc2

/-- `memory.py::_coerce_evidence_ids`. -/
def coerce_evidence_ids (raw : List Int) : List Int := coerceEvidenceLoop raw []

/-- `memory.py::_parse_terminology_entries`: validate and convert the raw
JSON array, dropping items whose confidence fails to convert, whose
(stripped) `eng`/`zh` is empty, whose confidence is below the threshold,
or whose (stripped, lower-cased) `type` is outside the fixed enum. -/
def parse_terminology_entries (raw : List RawTerm) (minConfidence : Int) : List TermEntry :=
  raw.filterMap fun item =>
    let eng := pyStrip item.eng
    let zh := pyStrip item.zh
    let typeValue := pyCasefold (pyStrip item.type)
    match item.confidence with
    | none => none
    | some confidence =>
      if eng = "" ∨ zh = "" then none
      else if confidence < minConfidence then none
      else if typeValue ∉ VALID_TERMINOLOGY_TYPES then none
      else some ⟨eng, zh, typeValue, confidence, coerce_evidence_ids item.evidence_ids⟩

/-- The case-insensitive user-glossary lookup of
`memory.py::update_global_memory` line 269:
`user_map = {entry.get("eng", "").strip().casefold(): entry for entry in user_glossary}`
(later entries overwrite earlier ones on the same key). -/
def userMapLookup (user_glossary : List GlossEntry) (key : String) : Option GlossEntry :=
  (user_glossary.filter fun e => pyCasefold (pyStrip e.eng) == key).getLast?

/-- `if policy == "lock" and eng_key in user_map` as an option-valued
lookup. -/
def lockLookup (policy : String) (user_glossary : List GlossEntry) (key : String) :
    Option GlossEntry :=
  if policy = "lock" then userMapLookup user_glossary key else none

/-- Outcome of the merge loop of `memory.py::update_global_memory`
(lines 282-307): the updated learned glossary and the four counters. -/
structure MergeResult where
  glossary : List TermEntry
  added : Nat
  skippedConflict : Nat
  skippedUserDup : Nat
  skippedExisting : Nat
deriving DecidableEq, Repr

/-- The `for term in new_terms` loop of `memory.py::update_global_memory`
(lines 282-307).  `existing` carries `existing_terms` (initially the raw
`eng` fields of the learned glossary; accepted stripped terms are added
as the loop runs). -/
def mergeLoop (policy : String) (user_glossary : List GlossEntry) :
    List TermEntry → List TermEntry → List String → Nat → Nat → Nat → Nat → MergeResult
  | [], gloss, _, added, confl, userDup, exist => ⟨gloss, added, confl, userDup, exist⟩
  | term :: rest, gloss, existing, added, confl, userDup, exist =>
    let eng := pyStrip term.eng
    let zh := pyStrip term.zh
    if eng = "" ∨ zh = "" then
      mergeLoop policy user_glossary rest gloss existing added confl userDup exist
    else
      match lockLookup policy user_glossary (pyCasefold eng) with
      | some userEntry =>
        let userZh := pyStrip userEntry.zh
        if userZh ≠ "" ∧ userZh ≠ zh then
          mergeLoop policy user_glossary rest gloss existing added (confl + 1) userDup exist
        else
          mergeLoop policy user_glossary rest gloss existing added confl (userDup + 1) exist
      | none =>
        if eng ∈ existing then
          mergeLoop policy user_glossary rest gloss existing added confl userDup (exist + 1)
        else
          mergeLoop policy user_glossary rest (gloss ++ [term]) (eng :: existing)
            (added + 1) confl userDup exist

/-- Model of the Python slice `l[-n:]` for an arbitrary integer `n`
(`l[-0:]` is the whole list). -/
def pySliceFromNeg (n : Int) (l : List TermEntry) : List TermEntry :=
  if 0 < n then l.drop (l.length - n.toNat) else l.drop (-n).toNat

/-- `memory.py::update_global_memory`, with the terminology oracle's
(filtered) proposals `new_terms` passed in as data (the source obtains
them from `extract_terminology_from_chunk`, an LLM collaborator).
After the merge loop, the learned glossary is truncated to the last
`glossary_max_entries` entries whenever that limit is positive and
exceeded. -/
def update_global_memory (memory : GlobalMemory) (new_terms : List TermEntry)
    (config : Config) : GlobalMemory :=
  let r := mergeLoop config.glossary_policy memory.user_glossary new_terms
    memory.glossary (memory.glossary.map (·.eng)) 0 0 0 0
  let g :=
    if 0 < config.glossary_max_entries ∧
        config.glossary_max_entries < (r.glossary.length : Int) then
      pySliceFromNeg config.glossary_max_entries r.glossary
    else r.glossary
  { memory with glossary := g }

/-- `memory.py::compress_memory_simple`: local fallback compression
(keep last `max_entries` learned entries, truncate notes/summary to 500
characters, and rebuild without `user_glossary`, which therefore
defaults to `[]`). -/
def compress_memory_simple (memory : GlobalMemory) (max_entries : Int) : GlobalMemory :=
  { user_glossary := []
    glossary := if memory.glossary = [] then [] else pySliceFromNeg max_entries memory.glossary
    style_notes := ⟨memory.style_notes.data.take 500⟩
    summary := ⟨memory.summary.data.take 500⟩ }

/-! ### Parsed JSON values and oracle-driven memory compression
(`memory.py::validate_memory_structure`, `GlobalMemory.from_dict`,
`llm_client.py::compress_memory`, `main.py::process_subtitles`) -/

/-- A parsed JSON value, as produced by Python's `json.loads` on an
oracle reply.  Objects are association lists; duplicate keys resolve to
the last occurrence, as in Python dicts.  JSON numbers are modelled as
`Int` (see the header note on confidences). -/
inductive JValue where
  | null : JValue
  | bool : Bool → JValue
  | num : Int → JValue
  | str : String → JValue
  | arr : List JValue → JValue
  | obj : List (String × JValue) → JValue
deriving Repr

/-- Python dict lookup on a parsed JSON object (last duplicate wins). -/
def objLookup (fields : List (String × JValue)) (key : String) : Option JValue :=
  ((fields.filter fun f => f.1 == key).getLast?).map (·.2)

/-- `memory.py::validate_memory_structure`: the value must be a dict
with a `"glossary"` key holding a list whose elements are dicts with
`"eng"` and `"zh"` keys. -/
def validate_memory_structure (v : JValue) : Bool :=
  match v with
  | .obj fields =>
    match objLookup fields "glossary" with
    | some (.arr entries) =>
      entries.all fun e =>
        match e with
        | .obj ef => (objLookup ef "eng").isSome && (objLookup ef "zh").isSome
        | _ => false
    | _ => false
  | _ => false

/-- A JSON string value, or `""` for a missing/non-string value (the
Python code reads these fields with `.get(key, "")` and only ever
formats them into text). -/
def jStrOrEmpty (v : Option JValue) : String :=
  match v with
  | some (.str s) => s
  | _ => ""

/-- Typed view of a learned-glossary dict coming back from the oracle
(fields read via `.get` with the usual defaults downstream). -/
def jToTermEntry (v : JValue) : TermEntry :=
  match v with
  | .obj ef =>
    { eng := jStrOrEmpty (objLookup ef "eng")
      zh := jStrOrEmpty (objLookup ef "zh")
      type := jStrOrEmpty (objLookup ef "type")
      confidence := (match objLookup ef "confidence" with | some (.num q) => q | _ => 0)
      evidence_ids := (match objLookup ef "evidence_ids" with
        | some (.arr xs) => xs.filterMap fun x => match x with | .num i => some i | _ => none
        | _ => []) }
  | _ => ⟨"", "", "", 0, []⟩

/-- Typed view of a user-glossary dict. -/
def jToGlossEntry (v : JValue) : GlossEntry :=
  match v with
  | .obj ef => ⟨jStrOrEmpty (objLookup ef "eng"), jStrOrEmpty (objLookup ef "zh")⟩
  | _ => ⟨"", ""⟩

/-- `memory.py::GlobalMemory.from_dict`: each field is read with
`data.get(key, default)`; a missing `user_glossary` key defaults to the
empty list.  (Non-list values under the glossary keys are modelled as
the empty list; the source would store them unchanged but never
constructs them.) -/
def GlobalMemory.fromJValue (v : JValue) : GlobalMemory :=
  match v with
  | .obj fields =>
    { user_glossary := (match objLookup fields "user_glossary" with
        | some (.arr xs) => xs.map jToGlossEntry
        | _ => [])
      glossary := (match objLookup fields "glossary" with
        | some (.arr xs) => xs.map jToTermEntry
        | _ => [])
      style_notes := jStrOrEmpty (objLookup fields "style_notes")
      summary := jStrOrEmpty (objLookup fields "summary") }
  | _ => ⟨[], [], "", ""⟩

/-- JSON string escaping for `json.dumps(..., ensure_ascii=False)`
(quotes, backslashes and the common control characters). -/
def jsonEscapeChar (c : Char) : String :=
  if c = '"' then "\\\""
  else if c = '\\' then "\\\\"
  else if c = '\n' then "\\n"
  else if c = '\t' then "\\t"
  else if c = '\r' then "\\r"
  else ⟨[c]⟩

/-- A JSON string literal. -/
def jsonStr (s : String) : String := "\"" ++ String.join (s.data.map jsonEscapeChar) ++ "\""

/-- JSON serialization of one learned-glossary entry
(`TerminologyEntry.to_dict` shape). -/
def dumpTermEntry (t : TermEntry) : String :=
  "\x7b" ++ jsonStr "eng" ++ ": " ++ jsonStr t.eng ++ ", " ++
    jsonStr "zh" ++ ": " ++ jsonStr t.zh ++ ", " ++
    jsonStr "type" ++ ": " ++ jsonStr t.type ++ ", " ++
    jsonStr "confidence" ++ ": " ++ toString t.confidence ++ ", " ++
    jsonStr "evidence_ids" ++ ": [" ++
    String.intercalate ", " (t.evidence_ids.map toString) ++ "]\x7d"

/-- `prompts.py::build_memory_compression_prompt`: the serialized
`memory_dict` contains exactly the `glossary`, `style_notes` and
`summary` fields — `user_glossary` is not serialized.  (The `indent=2`
pretty-printing of `json.dumps` is rendered with a fixed layout; only
which fields appear matters to the properties proved below.) -/
def build_memory_compression_prompt (global_memory : GlobalMemory)
    (target_tokens : Int) : String :=
  let memoryJson :=
    "\x7b\n  " ++ jsonStr "glossary" ++ ": [" ++
      String.intercalate ", " (global_memory.glossary.map dumpTermEntry) ++ "],\n  " ++
      jsonStr "style_notes" ++ ": " ++ jsonStr global_memory.style_notes ++ ",\n  " ++
      jsonStr "summary" ++ ": " ++ jsonStr global_memory.summary ++ "\n\x7d"
  "Current memory is too large. Please compress it to approximately " ++
    toString target_tokens ++ " tokens or less.\n\nCurrent memory:\n" ++ memoryJson ++
    "\n\nReturn ONLY the compressed JSON object, no explanations."

/-- `llm_client.py::compress_memory`, from the point where the oracle's
reply has been run through `extract_json_from_response`/`json.loads`:
`oracleReply = none` models an unparsable reply (`json.JSONDecodeError`);
a parsed reply failing `validate_memory_structure` is also an error;
otherwise the replacement state is `GlobalMemory.from_dict` of the
reply.  Every failure is raised as a recoverable `LLMAPIError`. -/
def compress_memory (global_memory : GlobalMemory) (oracleReply : Option JValue) :
    Except String GlobalMemory :=
  match oracleReply with
  | none => .error "Failed to parse memory compression response"
  | some data =>
    if validate_memory_structure data then .ok (GlobalMemory.fromJValue data)
    else .error "Compressed memory has invalid structure"

/-- The compression call site in `main.py::process_subtitles` (lines
194-210): on success the compressed state replaces the memory; on
`LLMAPIError` a warning is printed ("Continuing with uncompressed
memory") and the prior state is kept.  The returned flag records
whether the warning was emitted; the run then continues either way. -/
def memoryCompressionStep (global_memory : GlobalMemory) (oracleReply : Option JValue) :
    GlobalMemory × Bool :=
  match compress_memory global_memory oracleReply with
  | .ok compressed => (compressed, false)
  | .error _ => (global_memory, true)

/-! ### Memory rendering (`prompts.py::build_memory_section`,
`memory.py::estimate_memory_tokens`) -/

/-- `prompts.py::build_memory_section`: the legacy memory rendering.
The Python code appends the section headers and each entry line to a
list and returns `"".join(sections)` — the pieces are concatenated
without separators, exactly as modelled here. -/
def build_memory_section (global_memory : GlobalMemory) : String :=
  let userPart :=
    if global_memory.user_glossary ≠ [] then
      "\n\n**User Terminology (authoritative):**" ++
        String.join (global_memory.user_glossary.filterMap fun e =>
          if e.eng ≠ "" ∧ e.zh ≠ "" then some ("- " ++ e.eng ++ ": " ++ e.zh) else none)
    else ""
  let learnedPart :=
    if global_memory.glossary ≠ [] then
      "\n\n**Learned Terminology (supplement):**" ++
        String.join (global_memory.glossary.filterMap fun e =>
          if e.eng ≠ "" ∧ e.zh ≠ "" then
            some ("- " ++ e.eng ++ (if e.type ≠ "" then " (" ++ e.type ++ ")" else "") ++
              ": " ++ e.zh)
          else none)
    else ""
  let stylePart :=
    if global_memory.style_notes ≠ "" then
      "\n\n**Style Guidelines:**\n" ++ global_memory.style_notes
    else ""
  let summaryPart :=
    if global_memory.summary ≠ "" then "\n\n**Context:**\n" ++ global_memory.summary
    else ""
  userPart ++ learnedPart ++ stylePart ++ summaryPart

/-- `memory.py::estimate_memory_tokens`: the token estimate that
`main.py` compares against `memory_token_limit` is taken of
`build_memory_section(memory)`.  `est` models `utils.estimate_tokens`
(the external tiktoken collaborator). -/
def estimate_memory_tokens (memory : GlobalMemory) (est : String → Nat) : Nat :=
  est (build_memory_section memory)

/-! ### Template processing (`prompts.py`: `_normalize_section_title`,
`_renumber_sections`, `_find_section_boundaries`,
`_parse_template_glossary`, `_merge_glossaries`,
`_build_terminology_section`, `inject_memory_into_template`) -/

/-- The decimal digit character for `n < 10` (used with `n % 10`). -/
def digitChar : Nat → Char
  | 0 => '0' | 1 => '1' | 2 => '2' | 3 => '3' | 4 => '4'
  | 5 => '5' | 6 => '6' | 7 => '7' | 8 => '8' | _ => '9'

/-- Fuel-indexed decimal rendering of a natural number. -/
def natDigitsAux : Nat → Nat → List Char
  | 0, _ => []
  | fuel + 1, n =>
    if n < 10 then [digitChar n] else natDigitsAux fuel (n / 10) ++ [digitChar (n % 10)]

/-- Decimal digits of a natural number (what Python's f-string
interpolation prints for a non-negative section counter). -/
def natDigits (n : Nat) : List Char := natDigitsAux (n + 1) n

/-- `stripped.startswith("###")` on character lists. -/
def startsWith3Hash : List Char → Bool
  | '#' :: '#' :: '#' :: _ => true
  | _ => false

/-- The substitution `re.match(r"^\d+\.\s*", title)` /
`title[match.end():]` of `_normalize_section_title`: remove one leading
digit block followed by a dot and any whitespace; leave the input
unchanged when the pattern does not match. -/
def dropNumberDot (cs : List Char) : List Char :=
  let ds := cs.takeWhile Char.isDigit
  if ds = [] then cs
  else
    match cs.drop ds.length with
    | c :: rest => if c = '.' then rest.dropWhile isPyWS else cs
    | [] => cs

/-- `prompts.py::_normalize_section_title` on character lists: strip,
drop a leading `###`, then drop one leading `<number>.` prefix, and
strip again. -/
def normalizeSectionTitle (title : List Char) : List Char :=
  let t1 := trimChars title
  let t2 := if startsWith3Hash t1 then trimChars (t1.drop 3) else t1
  trimChars (dropNumberDot t2)

/-- Python `str.splitlines()` (newline-terminated lines, terminators
dropped, no empty trailing line).  Only `\n` line endings are modelled;
the templates this program processes use none of the exotic terminators. -/
def splitLinesAux : List Char → List Char → List (List Char)
  | [], acc => [acc.reverse]
  | c :: rest, acc =>
    if c = '\n' then
      if rest = [] then [acc.reverse]
      else acc.reverse :: splitLinesAux rest []
    else splitLinesAux rest (c :: acc)

/-- Python `str.splitlines()`. -/
def pySplitlines (cs : List Char) : List (List Char) :=
  if cs = [] then [] else splitLinesAux cs []

/-- Python `str.splitlines(keepends=True)` (terminators kept). -/
def splitKeepEndsAux : List Char → List Char → List (List Char)
  | [], acc => if acc = [] then [] else [acc.reverse]
  | c :: rest, acc =>
    if c = '\n' then (acc.reverse ++ ['\n']) :: splitKeepEndsAux rest []
    else splitKeepEndsAux rest (c :: acc)

/-- Python `str.splitlines(keepends=True)`. -/
def splitKeepEnds (cs : List Char) : List (List Char) := splitKeepEndsAux cs []

/-- The per-line loop of `prompts.py::_renumber_sections`, carrying the
running `section_num`: each line whose stripped form starts with `###`
is rebuilt as `f"### {section_num}. {normalized_title}"`. -/
def renumberLinesAux (n : Nat) : List (List Char) → List (List Char)
  | [] => []
  | line :: rest =>
    let stripped := trimChars line
    if startsWith3Hash stripped then
      ('#' :: '#' :: '#' :: ' ' :: (natDigits (n + 1) ++ '.' :: ' ' :: normalizeSectionTitle stripped))
        :: renumberLinesAux (n + 1) rest
    else line :: renumberLinesAux n rest

/-- `prompts.py::_renumber_sections`: split into lines, renumber the
`###` headers sequentially from 1, and re-join with `"\n"`. -/
def renumber_sections (template : String) : String :=
  ⟨List.intercalate ['\n'] (renumberLinesAux 0 (pySplitlines template.data))⟩

/-- The scanning loop of `prompts.py::_find_section_boundaries` over
`splitlines(keepends=True)`, carrying the character position and the
currently open `(section_start, header)` state.  A matching header
(re)opens the section; the next non-matching `###` header closes it at
the current position; end of input closes it at `template.length`. -/
def findBoundariesAux (target : List Char) (totalLen : Nat) :
    List (List Char) → Nat → Option (Nat × List Char) → Option (Nat × Nat × List Char)
  | [], _, openSection =>
    match openSection with
    | some (sectionStart, header) => some (sectionStart, totalLen, header)
    | none => none
  | line :: rest, pos, openSection =>
    let stripped := trimChars line
    if startsWith3Hash stripped then
      if normalizeSectionTitle stripped = target then
        findBoundariesAux target totalLen rest (pos + line.length)
          (some (pos + line.length, stripped))
      else
        match openSection with
        | some (sectionStart, header) => some (sectionStart, pos, header)
        | none => findBoundariesAux target totalLen rest (pos + line.length) none
    else findBoundariesAux target totalLen rest (pos + line.length) openSection

/-- `prompts.py::_find_section_boundaries`: locate the content span of
the section whose normalized title equals `target`, returning
`(section_start, section_end, header_line)` in character positions. -/
def find_section_boundaries (template : List Char) (target : List Char) :
    Option (Nat × Nat × List Char) :=
  findBoundariesAux target template.length (splitKeepEnds template) 0 none

/-- One line of `prompts.py::_parse_template_glossary`: the regex
`^\s*-\s+(.+?):\s*(.+?)\s*$` in its observable effect — optional
whitespace, a dash, at least one whitespace, then a first-colon split
with both sides stripped; lines without a dash/colon or with an empty
side produce nothing. -/
def parseGlossLine (line : List Char) : Option GlossEntry :=
  match line.dropWhile isPyWS with
  | '-' :: rest =>
    match rest with
    | [] => none
    | c :: _ =>
      if isPyWS c then
        let content := rest.dropWhile isPyWS
        if content.contains ':' then
          let eng := trimChars (content.takeWhile (· ≠ ':'))
          let zh := trimChars ((content.dropWhile (· ≠ ':')).drop 1)
          if eng ≠ [] ∧ zh ≠ [] then some ⟨⟨eng⟩, ⟨zh⟩⟩ else none
        else none
      else none
  | _ => none

/-- `prompts.py::_parse_template_glossary`. -/
def parse_template_glossary (sectionContent : List Char) : List GlossEntry :=
  (pySplitlines sectionContent).filterMap parseGlossLine

/-- First pass of `prompts.py::_merge_glossaries`: emit the template
entries in order (deduplicated by case-folded key), each replaced by
the merged dict's value for its key; returns the updated `seen_keys`. -/
def mergePass1 (lookup : String → GlossEntry) (seen : List String) :
    List GlossEntry → List GlossEntry × List String
  | [] => ([], seen)
  | e :: rest =>
    let key := pyCasefold e.eng
    if key ∈ seen then mergePass1 lookup seen rest
    else
      let (result, seenOut) := mergePass1 lookup (key :: seen) rest
      (lookup key :: result, seenOut)

/-- Second pass of `prompts.py::_merge_glossaries`: append the user
entries whose case-folded key was not seen in the first pass. -/
def mergePass2 (seen : List String) : List GlossEntry → List GlossEntry
  | [] => []
  | e :: rest =>
    let key := pyCasefold e.eng
    if key ∈ seen then mergePass2 seen rest
    else e :: mergePass2 (key :: seen) rest

/-- `prompts.py::_merge_glossaries`: the `merged` dict holds template
entries overwritten by user entries (keyed case-insensitively); the
result lists template-order entries first, then the remaining user
entries. -/
def merge_glossaries (template_glossary user_glossary : List GlossEntry) :
    List GlossEntry :=
  let lookup : String → GlossEntry := fun key =>
    (((template_glossary ++ user_glossary).filter fun e =>
      pyCasefold e.eng == key).getLast?).getD ⟨"", ""⟩
  let (part1, seen) := mergePass1 lookup [] template_glossary
  part1 ++ mergePass2 seen user_glossary

/-- `prompts.py::_build_terminology_section`: the authoritative entries
as `- eng: zh` lines, then (when any learned entries exist) a blank
line, the supplement header, and the learned entries with their
category annotated; joined with `"\n"`. -/
def build_terminology_section (user_glossary : List GlossEntry)
    (learned_glossary : List TermEntry) : String :=
  let userLines := user_glossary.filterMap fun e =>
    if e.eng ≠ "" ∧ e.zh ≠ "" then some ("- " ++ e.eng ++ ": " ++ e.zh) else none
  let lines :=
    if learned_glossary ≠ [] then
      userLines ++ (if userLines ≠ [] then [""] else []) ++
        ["**Learned Terminology (Supplement):**"] ++
        learned_glossary.filterMap fun e =>
          if e.eng ≠ "" ∧ e.zh ≠ "" then
            some ("- " ++ e.eng ++ (if e.type ≠ "" then " (" ++ e.type ++ ")" else "") ++
              ": " ++ e.zh)
          else none
    else userLines
  String.intercalate "\n" lines

/-- `prompts.py::inject_memory_into_template`, line 461. -/
def TARGET_SECTION : String := "User Terminology (Authoritative Glossary)"

/-- `prompts.py::inject_memory_into_template`.  Returns the rendered
template together with a flag recording whether the "section not found"
warning was printed (in which case the template is returned as-is).
On success the section body is replaced by the merged terminology and
all sections are renumbered. -/
def inject_memory_into_template (template : String) (global_memory : GlobalMemory) :
    String × Bool :=
  let cs := template.data
  match find_section_boundaries cs TARGET_SECTION.data with
  | none => (template, true)
  | some (sectionStart, sectionEnd, _header) =>
    let originalContent := (cs.drop sectionStart).take (sectionEnd - sectionStart)
    let template_glossary := parse_template_glossary originalContent
    let merged_user_glossary := merge_glossaries template_glossary global_memory.user_glossary
    let newContent := build_terminology_section merged_user_glossary global_memory.glossary
    let newTemplate : List Char :=
      cs.take sectionStart ++ '\n' :: newContent.data ++ '\n' :: '\n' ::
        pyLstrip (cs.drop sectionEnd)
    (renumber_sections ⟨newTemplate⟩, false)

/-! ### Derived views of rendered templates (used to state the
renumbering properties) -/

/-- The classification used by `_renumber_sections`: a line whose
stripped form starts with `###`. -/
def isHeaderLine (line : List Char) : Bool := startsWith3Hash (trimChars line)

/-- The normalized titles of a template's header lines, in document
order. -/
def headerTitles (lines : List (List Char)) : List (List Char) :=
  lines.filterMap fun l =>
    if isHeaderLine l then some (normalizeSectionTitle (trimChars l)) else none

/-- The header lines `### (n+1). t₁`, `### (n+2). t₂`, ... that
sequential renumbering starting at `n + 1` produces for the given
titles. -/
def numberedHeaders : Nat → List (List Char) → List (List Char)
  | _, [] => []
  | n, t :: ts =>
    ('#' :: '#' :: '#' :: ' ' :: (natDigits (n + 1) ++ '.' :: ' ' :: t)) ::
      numberedHeaders (n + 1) ts

/-- The header lines of a rendered template, in document order. -/
def headerLinesOf (s : String) : List (List Char) :=
  (pySplitlines s.data).filterMap fun l => if isHeaderLine l then some l else none

/-! ## Theorems -/

/-! ### Chunking (claims C1 and C4) -/

theorem flatten_chunkByTokensLoop (est : SubtitlePair → Nat) (maxTok : Int) :
    ∀ (pairs cur : List SubtitlePair) (curTok : Int),
      (chunkByTokensLoop est maxTok pairs cur curTok).flatten = cur ++ pairs
  | [], cur, curTok => by
    by_cases h : cur = [] <;> simp [chunkByTokensLoop, h]
  | p :: rest, cur, curTok => by
    rw [chunkByTokensLoop]
    split
    · simp [flatten_chunkByTokensLoop est maxTok rest [p] _]
    · simp [flatten_chunkByTokensLoop est maxTok rest (cur ++ [p]) _]

theorem flatten_chunkByCountAux (k : Nat) :
    ∀ (fuel : Nat) (pairs : List SubtitlePair), k ≠ 0 → pairs.length ≤ fuel →
      (chunkByCountAux k fuel pairs).flatten = pairs
  | 0, pairs, _, hlen => by
    have : pairs = [] := List.length_eq_zero.mp (Nat.le_zero.mp hlen)
    simp [this, chunkByCountAux]
  | fuel + 1, [], _, _ => by simp [chunkByCountAux]
  | fuel + 1, p :: rest, hk, hlen => by
    rw [chunkByCountAux, List.flatten_cons,
      flatten_chunkByCountAux k fuel ((p :: rest).drop k) hk (by
        simp only [List.length_drop, List.length_cons] at hlen ⊢
        omega),
      List.take_append_drop]

theorem chunkByCountAux_fuel (k : Nat) (hk : k ≠ 0) :
    ∀ (f1 f2 : Nat) (pairs : List SubtitlePair),
      pairs.length ≤ f1 → pairs.length ≤ f2 →
      chunkByCountAux k f1 pairs = chunkByCountAux k f2 pairs
  | 0, f2, pairs, h1, h2 => by
    have : pairs = [] := List.length_eq_zero.mp (Nat.le_zero.mp h1)
    cases f2 <;> simp [this, chunkByCountAux]
  | f1 + 1, 0, pairs, h1, h2 => by
    have : pairs = [] := List.length_eq_zero.mp (Nat.le_zero.mp h2)
    simp [this, chunkByCountAux]
  | f1 + 1, f2 + 1, [], h1, h2 => by simp [chunkByCountAux]
  | f1 + 1, f2 + 1, p :: rest, h1, h2 => by
    rw [chunkByCountAux, chunkByCountAux,
      chunkByCountAux_fuel k hk f1 f2 ((p :: rest).drop k) (by
        simp only [List.length_drop, List.length_cons] at h1 ⊢; omega) (by
        simp only [List.length_drop, List.length_cons] at h2 ⊢; omega)]

theorem chunk_pairs_by_count_cons (p : SubtitlePair) (rest : List SubtitlePair)
    (k : Nat) (hk : k ≠ 0) :
    chunk_pairs_by_count (p :: rest) k =
      (p :: rest).take k :: chunk_pairs_by_count ((p :: rest).drop k) k := by
  rw [chunk_pairs_by_count, chunk_pairs_by_count, if_neg hk, if_neg hk, List.length_cons,
    chunkByCountAux]
  rw [chunkByCountAux_fuel k hk rest.length ((p :: rest).drop k).length ((p :: rest).drop k)
    (by simp only [List.length_drop, List.length_cons]; omega) (Nat.le_refl _)]

theorem flatten_chunk_pairs_by_count (pairs : List SubtitlePair) (k : Nat) (hk : k ≠ 0) :
    (chunk_pairs_by_count pairs k).flatten = pairs := by
  rw [chunk_pairs_by_count, if_neg hk]
  exact flatten_chunkByCountAux k pairs.length pairs hk (Nat.le_refl _)

theorem validate_chunks_of_flatten (pairs : List SubtitlePair)
    (chunks : List (List SubtitlePair)) (h : chunks.flatten = pairs) :
    validate_chunks pairs chunks = true := by
  simp [validate_chunks, h]

/-- C1: for every pair list, token estimator and configuration — hence
under both the fixed-pair-count policy and the token-budget policy — the
batches of `chunk_pairs` concatenate back to exactly the input list (so
the multiset of ids is preserved, nothing lost or duplicated, and both
batch order and intra-batch order equal the input order), and
`validate_chunks` accepts the output. -/
theorem chunk_pairs_partitions_input (est : SubtitlePair → Nat) (pairs : List SubtitlePair)
    (config : Config) (basePromptTokens : Int) :
    (chunk_pairs est pairs config basePromptTokens).flatten = pairs ∧
    validate_chunks pairs (chunk_pairs est pairs config basePromptTokens) = true := by
  have hflat : (chunk_pairs est pairs config basePromptTokens).flatten = pairs := by
    rw [chunk_pairs]
    by_cases hp : pairs = []
    · simp [hp]
    · rw [if_neg hp]
      cases hcfg : config.pairs_per_chunk with
      | none =>
        simp only [hcfg]
        simpa using flatten_chunkByTokensLoop est _ pairs [] 0
      | some n =>
        simp only [hcfg]
        by_cases hn : 0 < n
        · rw [if_pos hn]
          exact flatten_chunk_pairs_by_count pairs n.toNat (by omega)
        · rw [if_neg hn]
          simpa using flatten_chunkByTokensLoop est _ pairs [] 0
  exact ⟨hflat, validate_chunks_of_flatten _ _ hflat⟩

/-- C4, counterexample: with the claim's parameters (constant per-pair
estimate 100, `soft_limit = 1000`, `base_overhead = 200`), the claimed
"batches of 7 pairs each until exhausted" would give batch sizes `[7, 1]`
on an 8-pair input, but the code's hard-coded `safety_margin = 1000`
leaves `max_chunk_tokens = 1000 - 200 - 1000 = -200`, so every batch
holds exactly one pair. -/
theorem chunk_pairs_token_budget_counterexample :
    (chunk_pairs (fun _ => 100)
      [⟨0, "a", "甲"⟩, ⟨1, "b", "乙"⟩, ⟨2, "c", "丙"⟩, ⟨3, "d", "丁"⟩,
       ⟨4, "e", "戊"⟩, ⟨5, "f", "己"⟩, ⟨6, "g", "庚"⟩, ⟨7, "h", "辛"⟩]
      ⟨none, 1000, 4000, 100, "lock", 60⟩ 200).map List.length =
      List.replicate 8 1 ∧
    (chunk_pairs (fun _ => 100)
      [⟨0, "a", "甲"⟩, ⟨1, "b", "乙"⟩, ⟨2, "c", "丙"⟩, ⟨3, "d", "丁"⟩,
       ⟨4, "e", "戊"⟩, ⟨5, "f", "己"⟩, ⟨6, "g", "庚"⟩, ⟨7, "h", "辛"⟩]
      ⟨none, 1000, 4000, 100, "lock", 60⟩ 200).map List.length ≠ [7, 1] := by
  constructor
  · decide
  · decide

theorem chunkByTokensLoop_const100 :
    ∀ (pairs cur : List SubtitlePair) (curTok : Int), cur ≠ [] → cur.length ≤ 7 →
      curTok = 100 * (cur.length : Int) →
      chunkByTokensLoop (fun _ => 100) 700 pairs cur curTok =
        (cur ++ pairs.take (7 - cur.length)) ::
          chunk_pairs_by_count (pairs.drop (7 - cur.length)) 7
  | [], cur, curTok, hc, hlen, htok => by
    rw [chunkByTokensLoop, if_neg hc]
    simp [chunk_pairs_by_count, chunkByCountAux]
  | p :: rest, cur, curTok, hc, hlen, htok => by
    rw [chunkByTokensLoop]
    by_cases hfull : cur.length = 7
    · rw [if_pos ⟨hc, by rw [htok, hfull]; norm_num⟩]
      rw [chunkByTokensLoop_const100 rest [p] _ (by simp) (by simp) (by norm_num)]
      rw [hfull]
      simp only [Nat.sub_self, List.take_zero, List.append_nil, List.drop_zero,
        List.length_cons, List.length_nil]
      rw [chunk_pairs_by_count_cons p rest 7 (by omega)]
      simp
    · have hlt : cur.length < 7 := by omega
      rw [if_neg (by
        rw [htok]
        intro hcl
        have h2 := hcl.2
        push_cast at h2
        omega)]
      rw [chunkByTokensLoop_const100 rest (cur ++ [p]) _ (by simp) (by
          simp only [List.length_append, List.length_cons, List.length_nil]
          omega) (by
          rw [htok]
          simp only [List.length_append, List.length_cons, List.length_nil]
          push_cast
          ring)]
      have hm : 7 - cur.length = (7 - (cur ++ [p]).length) + 1 := by
        simp only [List.length_append, List.length_cons, List.length_nil]
        omega
      rw [hm]
      simp [List.take_succ_cons, List.drop_succ_cons]

/-- C4, amended: the safety margin is hard-coded to 1000 tokens, so the
available pair budget is `soft_limit - base_overhead - 1000`.  With a
constant per-pair estimate of 100 tokens and an available budget of 700
(e.g. `soft_limit = 1900`, `base_overhead = 200`), token-budget chunking
produces batches of exactly 7 pairs until the input is exhausted (the
last batch holding the remainder) — it coincides with fixed-count
chunking at 7 pairs per batch. -/
theorem chunk_pairs_token_budget_seven (pairs : List SubtitlePair) :
    chunk_pairs (fun _ => 100) pairs ⟨none, 1900, 4000, 100, "lock", 60⟩ 200 =
      chunk_pairs_by_count pairs 7 := by
  rw [chunk_pairs]
  by_cases hp : pairs = []
  · simp [hp, chunk_pairs_by_count, chunkByCountAux]
  · rw [if_neg hp]
    match pairs, hp with
    | p :: rest, _ =>
      simp only []
      rw [chunkByTokensLoop, if_neg (by simp)]
      rw [show (1900 : Int) - 200 - 1000 = 700 by norm_num]
      rw [chunkByTokensLoop_const100 rest ([] ++ [p]) _ (by simp) (by simp) (by norm_num)]
      rw [chunk_pairs_by_count_cons p rest 7 (by omega)]
      simp

/-! ### Terminology merge (claims C2, C3, C8) -/

/-- C2: under the `lock` policy, a proposed term whose (stripped,
case-folded) source term is found in the authoritative user-glossary
lookup, while the authoritative entry's stripped target term is
non-empty and differs from the proposal's stripped target term, is
rejected as a conflict: processing the proposal leaves the learned
glossary, the dedup set and every other counter unchanged and
increments exactly the conflict counter. -/
theorem mergeLoop_lock_conflict_rejected (ug : List GlossEntry) (t : TermEntry)
    (ue : GlossEntry) (rest gloss : List TermEntry) (existing : List String)
    (a c d ex : Nat)
    (heng : pyStrip t.eng ≠ "") (hzh : pyStrip t.zh ≠ "")
    (hfound : userMapLookup ug (pyCasefold (pyStrip t.eng)) = some ue)
    (huz : pyStrip ue.zh ≠ "") (hdiff : pyStrip ue.zh ≠ pyStrip t.zh) :
    mergeLoop "lock" ug (t :: rest) gloss existing a c d ex =
      mergeLoop "lock" ug rest gloss existing a (c + 1) d ex := by
  have hl : lockLookup "lock" ug (pyCasefold (pyStrip t.eng)) = some ue := by
    rw [lockLookup, if_pos rfl, hfound]
  have hne : ¬(pyStrip t.eng = "" ∨ pyStrip t.zh = "") := by
    push_neg
    exact ⟨heng, hzh⟩
  simp only [mergeLoop, hl]
  rw [if_neg hne, if_pos ⟨huz, hdiff⟩]

/-- C2 witness: the authoritative glossary `{"Chris": "克里斯"}` against
the proposal `{"Chris": "克裏斯"}` (confidence 0.9): the proposal is
rejected, counted as the single conflict, and the learned glossary stays
empty. -/
theorem mergeLoop_lock_conflict_rejected_witness :
    mergeLoop "lock" [⟨"Chris", "克里斯"⟩]
      [⟨"Chris", "克裏斯", "person", 90, []⟩] [] [] 0 0 0 0 =
      ⟨[], 0, 1, 0, 0⟩ := by
  rw [mergeLoop_lock_conflict_rejected [⟨"Chris", "克里斯"⟩]
    ⟨"Chris", "克裏斯", "person", 90, []⟩ ⟨"Chris", "克里斯"⟩ [] [] [] 0 0 0 0
    (by decide) (by decide) (by decide) (by decide) (by decide)]
  decide

/-- C3: whenever the configured maximum is positive, the learned
glossary after `update_global_memory` is exactly the suffix of the
merged glossary formed by its most recently appended
`glossary_max_entries` entries (dropping the oldest first, recency
being list/insertion order, relative order preserved), and its length
never exceeds the maximum. -/
theorem update_global_memory_eviction (memory : GlobalMemory)
    (new_terms : List TermEntry) (config : Config)
    (hmax : 0 < config.glossary_max_entries) :
    (update_global_memory memory new_terms config).glossary =
      (mergeLoop config.glossary_policy memory.user_glossary new_terms memory.glossary
        (memory.glossary.map (·.eng)) 0 0 0 0).glossary.drop
        ((mergeLoop config.glossary_policy memory.user_glossary new_terms memory.glossary
          (memory.glossary.map (·.eng)) 0 0 0 0).glossary.length -
          config.glossary_max_entries.toNat) ∧
    ((update_global_memory memory new_terms config).glossary.length : Int) ≤
      config.glossary_max_entries := by
  set r := mergeLoop config.glossary_policy memory.user_glossary new_terms memory.glossary
    (memory.glossary.map (·.eng)) 0 0 0 0 with hr
  have hupd : (update_global_memory memory new_terms config).glossary =
      (if 0 < config.glossary_max_entries ∧
          config.glossary_max_entries < (r.glossary.length : Int) then
        pySliceFromNeg config.glossary_max_entries r.glossary
      else r.glossary) := by
    simp only [update_global_memory, hr]
  by_cases hcond : config.glossary_max_entries < (r.glossary.length : Int)
  · rw [hupd, if_pos ⟨hmax, hcond⟩, pySliceFromNeg, if_pos hmax]
    refine ⟨rfl, ?_⟩
    rw [List.length_drop]
    omega
  · rw [hupd, if_neg (by
      intro hand
      exact hcond hand.2)]
    constructor
    · rw [Nat.sub_eq_zero_of_le (by omega), List.drop_zero]
    · omega

/-- C3 witness: with `max_entries = 3` and five distinct accepted
proposals, the final learned glossary is exactly the last three accepted
entries, in their original relative order, and its length is within the
bound. -/
theorem update_global_memory_eviction_witness :
    (update_global_memory ⟨[], [], "", ""⟩
      [⟨"A", "甲", "person", 80, []⟩, ⟨"B", "乙", "person", 80, []⟩,
       ⟨"C", "丙", "person", 80, []⟩, ⟨"D", "丁", "person", 80, []⟩,
       ⟨"E", "戊", "person", 80, []⟩]
      ⟨none, 60000, 4000, 3, "lock", 60⟩).glossary =
      [⟨"C", "丙", "person", 80, []⟩, ⟨"D", "丁", "person", 80, []⟩,
       ⟨"E", "戊", "person", 80, []⟩] ∧
    (((update_global_memory ⟨[], [], "", ""⟩
      [⟨"A", "甲", "person", 80, []⟩, ⟨"B", "乙", "person", 80, []⟩,
       ⟨"C", "丙", "person", 80, []⟩, ⟨"D", "丁", "person", 80, []⟩,
       ⟨"E", "戊", "person", 80, []⟩]
      ⟨none, 60000, 4000, 3, "lock", 60⟩).glossary.length : Int) ≤ 3) := by
  have h := update_global_memory_eviction ⟨[], [], "", ""⟩
    [⟨"A", "甲", "person", 80, []⟩, ⟨"B", "乙", "person", 80, []⟩,
     ⟨"C", "丙", "person", 80, []⟩, ⟨"D", "丁", "person", 80, []⟩,
     ⟨"E", "戊", "person", 80, []⟩]
    ⟨none, 60000, 4000, 3, "lock", 60⟩ (by decide)
  exact ⟨h.1.trans (by decide), h.2⟩

/-- C8, counterexample: an entry with category `"banana"` (outside the
ten-value enum) and confidence 0.1 (below the 0.6 threshold) that is fed
directly to the merge engine is NOT ignored — `update_global_memory`
appends it to the learned glossary, because the merge loop checks only
for empty terms, the user-glossary lock and exact duplicates. -/
theorem merge_accepts_invalid_entry_counterexample :
    (update_global_memory ⟨[], [], "", ""⟩ [⟨"Foo", "福", "banana", 10, []⟩]
      ⟨none, 60000, 4000, 100, "lock", 60⟩).glossary =
      [⟨"Foo", "福", "banana", 10, []⟩] := by decide

/-- C8, amended: the parser `_parse_terminology_entries` guarantees that
no entry with confidence below the threshold, a category outside the
fixed enum, or an empty source/target term ever reaches the merge step;
and the merge engine itself defensively ignores entries with an empty
(stripped) source or target term.  (It does not re-check confidence or
category: such entries, if fed to it directly, are accepted — see the
counterexample.) -/
theorem parse_filters_and_merge_skips_empty :
    (∀ (raw : List RawTerm) (minConf : Int) (e : TermEntry),
      e ∈ parse_terminology_entries raw minConf →
      minConf ≤ e.confidence ∧ e.type ∈ VALID_TERMINOLOGY_TYPES ∧
        e.eng ≠ "" ∧ e.zh ≠ "") ∧
    (∀ (policy : String) (ug : List GlossEntry) (t : TermEntry)
      (rest gloss : List TermEntry) (existing : List String) (a c d ex : Nat),
      pyStrip t.eng = "" ∨ pyStrip t.zh = "" →
      mergeLoop policy ug (t :: rest) gloss existing a c d ex =
        mergeLoop policy ug rest gloss existing a c d ex) := by
  constructor
  · intro raw minConf e he
    simp only [parse_terminology_entries, List.mem_filterMap] at he
    obtain ⟨item, _, hf⟩ := he
    cases hconf : item.confidence with
    | none => rw [hconf] at hf; simp at hf
    | some conf =>
      rw [hconf] at hf
      simp only [] at hf
      split_ifs at hf with h1 h2 h3
      obtain rfl := Option.some.inj hf
      push_neg at h1
      refine ⟨?_, by simpa using h3, h1.1, h1.2⟩
      show minConf ≤ conf
      omega
  · intro policy ug t rest gloss existing a c d ex h
    simp only [mergeLoop]
    rw [if_pos h]

/-- C8 witness: the parser keeps a well-formed entry (whose fields then
satisfy all the invariants), and the merge loop skips an entry whose
source term strips to the empty string. -/
theorem parse_filters_and_merge_skips_empty_witness :
    ((60 : Int) ≤ (80 : Int) ∧ "person" ∈ VALID_TERMINOLOGY_TYPES ∧
      ("Bryer" : String) ≠ "" ∧ ("布赖尔" : String) ≠ "") ∧
    mergeLoop "lock" [] [⟨"  ", "空", "person", 90, []⟩] [] [] 0 0 0 0 =
      mergeLoop "lock" [] [] [] [] 0 0 0 0 := by
  constructor
  · exact parse_filters_and_merge_skips_empty.1
      [⟨"Bryer", "布赖尔", "person", some 80, [20]⟩] 60
      ⟨"Bryer", "布赖尔", "person", 80, [20]⟩ (by decide)
  · exact parse_filters_and_merge_skips_empty.2 "lock" []
      ⟨"  ", "空", "person", 90, []⟩ [] [] [] 0 0 0 0 (by decide)

/-! ### Memory compression (claims C5 and C6) -/

/-- C5: if the compression oracle's reply is unparsable (`none`) or
fails `validate_memory_structure`, then `compress_memory` fails with a
recoverable error, and the compression step of the run loop keeps the
memory state identical in every field, records the warning, and returns
normally (the run continues with the next batch). -/
theorem compression_failure_keeps_state (memory : GlobalMemory)
    (reply : Option JValue)
    (hbad : reply = none ∨
      ∃ d, reply = some d ∧ validate_memory_structure d = false) :
    (∃ msg, compress_memory memory reply = .error msg) ∧
    memoryCompressionStep memory reply = (memory, true) := by
  rcases hbad with h | ⟨d, hd, hv⟩
  · subst h
    exact ⟨⟨_, rfl⟩, rfl⟩
  · subst hd
    refine ⟨⟨"Compressed memory has invalid structure", ?_⟩, ?_⟩
    · simp [compress_memory, hv]
    · simp [memoryCompressionStep, compress_memory, hv]

/-- C5 witness: a structurally invalid oracle reply (an object with no
`"glossary"` key) leaves a non-trivial memory state unchanged and sets
the warning flag. -/
theorem compression_failure_keeps_state_witness :
    (∃ msg, compress_memory ⟨[⟨"Chris", "克里斯"⟩], [⟨"AJ", "AJ", "person", 90, []⟩],
      "casual", "plot"⟩ (some (.obj [])) = .error msg) ∧
    memoryCompressionStep ⟨[⟨"Chris", "克里斯"⟩], [⟨"AJ", "AJ", "person", 90, []⟩],
      "casual", "plot"⟩ (some (.obj [])) =
      (⟨[⟨"Chris", "克里斯"⟩], [⟨"AJ", "AJ", "person", 90, []⟩], "casual", "plot"⟩, true) :=
  compression_failure_keeps_state _ _ (Or.inr ⟨_, rfl, rfl⟩)

/-- C6: compression discards the authoritative glossary.  (i) The local
fallback `compress_memory_simple` always returns a state with an empty
`user_glossary`.  (ii) The compression prompt serializes only
`glossary`, `style_notes` and `summary`, so it is independent of the
input's `user_glossary`.  (iii) On the oracle path, whenever the
(validated) reply object has no `"user_glossary"` key — and the prompt's
advertised schema has none — the rebuilt state's `user_glossary` is
`[]`, whatever the input state contained. -/
theorem compression_discards_user_glossary :
    (∀ (memory : GlobalMemory) (maxEntries : Int),
      (compress_memory_simple memory maxEntries).user_glossary = []) ∧
    (∀ (memory : GlobalMemory) (ug : List GlossEntry) (target : Int),
      build_memory_compression_prompt { memory with user_glossary := ug } target =
        build_memory_compression_prompt memory target) ∧
    (∀ (fields : List (String × JValue)) (memory gm : GlobalMemory),
      objLookup fields "user_glossary" = none →
      compress_memory memory (some (.obj fields)) = .ok gm →
      gm.user_glossary = []) := by
  refine ⟨fun _ _ => rfl, fun _ _ _ => rfl, ?_⟩
  intro fields memory gm hkey hok
  rw [compress_memory] at hok
  by_cases hv : validate_memory_structure (.obj fields)
  · rw [if_pos hv] at hok
    obtain rfl := (Except.ok.inj hok).symm
    simp only [GlobalMemory.fromJValue, hkey]
  · rw [if_neg hv] at hok
    exact absurd hok (by simp)

/-- C6 witness: compressing a state with a non-empty authoritative
glossary through an oracle reply of the advertised
`{glossary, style_notes, summary}` shape succeeds and returns a state
whose `user_glossary` is empty. -/
theorem compression_discards_user_glossary_witness :
    compress_memory ⟨[⟨"Chris", "克里斯"⟩], [], "", ""⟩
      (some (.obj [("glossary", .arr []), ("style_notes", .str "x"), ("summary", .str "y")])) =
      .ok (GlobalMemory.fromJValue
        (.obj [("glossary", .arr []), ("style_notes", .str "x"), ("summary", .str "y")])) ∧
    (GlobalMemory.fromJValue
      (.obj [("glossary", .arr []), ("style_notes", .str "x"), ("summary", .str "y")])).user_glossary = [] := by
  refine ⟨rfl, ?_⟩
  exact compression_discards_user_glossary.2.2
    [("glossary", .arr []), ("style_notes", .str "x"), ("summary", .str "y")]
    ⟨[⟨"Chris", "克里斯"⟩], [], "", ""⟩ _ rfl rfl

/-! ### String toolkit: properties of `rstripChars`, `trimChars`,
`natDigits` and `normalizeSectionTitle` -/

theorem rstripChars_append_not_ws (l : List Char) (c : Char) (hc : isPyWS c = false) :
    rstripChars (l ++ [c]) = l ++ [c] := by
  induction l with
  | nil => simp [rstripChars, hc]
  | cons a l ih =>
    rw [List.cons_append, rstripChars]
    simp only [ih]
    rw [if_neg (by simp)]

theorem rstripChars_append_ws (l : List Char) (c : Char) (hc : isPyWS c = true) :
    rstripChars (l ++ [c]) = rstripChars l := by
  induction l with
  | nil => simp [rstripChars, hc]
  | cons a l ih =>
    rw [List.cons_append, rstripChars, rstripChars]
    simp only [ih]

theorem rstripChars_rstripChars (l : List Char) :
    rstripChars (rstripChars l) = rstripChars l := by
  induction l with
  | nil => rfl
  | cons a l ih =>
    rw [rstripChars]
    by_cases h : rstripChars l = [] ∧ isPyWS a = true
    · rw [if_pos (by simpa using h)]
      rfl
    · rw [if_neg (by simpa using h), rstripChars, ih]
      rw [if_neg (by simpa using h)]

theorem rstripChars_head? (l : List Char) :
    rstripChars l = [] ∨ (rstripChars l).head? = l.head? := by
  cases l with
  | nil => exact Or.inl rfl
  | cons a l =>
    rw [rstripChars]
    by_cases h : rstripChars l = [] ∧ isPyWS a = true
    · rw [if_pos (by simpa using h)]
      exact Or.inl rfl
    · rw [if_neg (by simpa using h)]
      exact Or.inr rfl

theorem dropWhile_of_dropWhile_eq_self (p : Char → Bool) (l : List Char)
    (h : l.dropWhile p = l) : ∀ m : List Char, m.head? = l.head? → m.dropWhile p = m := by
  intro m hm
  cases m with
  | nil => rfl
  | cons a m =>
    cases l with
    | nil => simp at hm
    | cons b l =>
      simp only [List.head?_cons, Option.some.injEq] at hm
      subst hm
      rw [List.dropWhile_cons] at h ⊢
      by_cases hp : p a = true
      · rw [if_pos hp] at h
        exact absurd (congrArg List.length h)
          (by
            have := (List.dropWhile_suffix (l := l) p).length_le
            simp only [List.length_cons]
            omega)
      · rw [if_neg hp]

theorem dropWhile_rstripChars (p : Char → Bool) (l : List Char)
    (h : l.dropWhile p = l) : (rstripChars l).dropWhile p = rstripChars l := by
  rcases rstripChars_head? l with he | hh
  · rw [he]
    rfl
  · exact dropWhile_of_dropWhile_eq_self p l h _ hh

theorem trimChars_dropWhile (l : List Char) :
    (trimChars l).dropWhile isPyWS = trimChars l := by
  rw [trimChars]
  exact dropWhile_rstripChars isPyWS _ (List.dropWhile_idempotent isPyWS l)

theorem trimChars_rstripChars (l : List Char) :
    rstripChars (trimChars l) = trimChars l := by
  rw [trimChars, rstripChars_rstripChars]

theorem trimChars_trimChars (l : List Char) :
    trimChars (trimChars l) = trimChars l := by
  conv_lhs => rw [trimChars, trimChars_dropWhile]
  exact trimChars_rstripChars l

theorem trimChars_eq_self_of_parts (l : List Char) (h1 : l.dropWhile isPyWS = l)
    (h2 : rstripChars l = l) : trimChars l = l := by
  rw [trimChars, h1, h2]

theorem rstripChars_append_of_invariant (A X : List Char) (hne : X ≠ [])
    (hX : rstripChars X = X) : rstripChars (A ++ X) = A ++ X := by
  induction A with
  | nil => simpa using hX
  | cons a A ih =>
    rw [List.cons_append, rstripChars]
    simp only [ih]
    rw [if_neg (by simp [hne])]

theorem digitChar_props (n : Nat) :
    (digitChar n).isDigit = true ∧ isPyWS (digitChar n) = false ∧
      digitChar n ≠ '.' ∧ digitChar n ≠ '\n' ∧ digitChar n ≠ '#' := by
  unfold digitChar
  split <;> refine ⟨by decide, by decide, by decide, by decide, by decide⟩

theorem natDigitsAux_props (fuel : Nat) :
    ∀ n : Nat, n < fuel → natDigitsAux fuel n ≠ [] ∧
      ∀ c ∈ natDigitsAux fuel n,
        c.isDigit = true ∧ isPyWS c = false ∧ c ≠ '.' ∧ c ≠ '\n' ∧ c ≠ '#' := by
  induction fuel with
  | zero => intro n h; omega
  | succ fuel ih =>
    intro n h
    rw [natDigitsAux]
    by_cases h10 : n < 10
    · rw [if_pos h10]
      refine ⟨by simp, ?_⟩
      intro c hc
      simp only [List.mem_singleton] at hc
      subst hc
      exact digitChar_props n
    · rw [if_neg h10]
      have hdiv : n / 10 < fuel := by omega
      obtain ⟨hne, hall⟩ := ih (n / 10) hdiv
      refine ⟨by simp, ?_⟩
      intro c hc
      rw [List.mem_append] at hc
      rcases hc with hc | hc
      · exact hall c hc
      · simp only [List.mem_singleton] at hc
        subst hc
        exact digitChar_props (n % 10)

theorem natDigits_ne_nil (n : Nat) : natDigits n ≠ [] :=
  (natDigitsAux_props (n + 1) n (by omega)).1

theorem natDigits_props (n : Nat) :
    ∀ c ∈ natDigits n,
      c.isDigit = true ∧ isPyWS c = false ∧ c ≠ '.' ∧ c ≠ '\n' ∧ c ≠ '#' :=
  (natDigitsAux_props (n + 1) n (by omega)).2

theorem takeWhile_append_all (p : Char → Bool) (A : List Char) (b : Char)
    (r : List Char) (hA : ∀ a ∈ A, p a = true) (hb : p b = false) :
    (A ++ b :: r).takeWhile p = A := by
  induction A with
  | nil => simp [List.takeWhile_cons, hb]
  | cons a A ih =>
    rw [List.cons_append, List.takeWhile_cons, if_pos (hA a (by simp))]
    rw [ih fun x hx => hA x (by simp [hx])]

theorem rstripChars_cons_of_invariant (c : Char) (X : List Char) (hne : X ≠ [])
    (hX : rstripChars X = X) : rstripChars (c :: X) = c :: X := by
  rw [rstripChars]
  simp only [hX]
  rw [if_neg (by simp [hne])]

/-- The central header-line computation: normalizing a rebuilt header
`### <digits>. <title>` recovers exactly the (already trimmed) title. -/
theorem normalizeSectionTitle_rebuilt (D X : List Char) (hD : D ≠ [])
    (hDall : ∀ c ∈ D, c.isDigit = true ∧ isPyWS c = false ∧ c ≠ '.' ∧ c ≠ '\n' ∧ c ≠ '#')
    (hX : trimChars X = X) :
    normalizeSectionTitle ('#' :: '#' :: '#' :: ' ' :: (D ++ '.' :: ' ' :: X)) = X := by
  have hXdrop : X.dropWhile isPyWS = X := by
    conv_lhs => rw [← hX, trimChars_dropWhile]
    exact hX
  have hXr : rstripChars X = X := by
    conv_lhs => rw [← hX, trimChars_rstripChars]
    exact hX
  obtain ⟨d, D', hDe, hdws⟩ : ∃ d D', D = d :: D' ∧ isPyWS d = false := by
    cases D with
    | nil => exact absurd rfl hD
    | cons d D' => exact ⟨d, D', rfl, (hDall d (by simp)).2.1⟩
  have hDdig : ∀ a ∈ D, a.isDigit = true := fun a ha => (hDall a ha).1
  cases X with
  | nil =>
    have htrim : trimChars ('#' :: '#' :: '#' :: ' ' :: (D ++ '.' :: ' ' :: ([] : List Char))) =
        '#' :: '#' :: '#' :: ' ' :: (D ++ ['.']) := by
      rw [trimChars, List.dropWhile_cons, if_neg (by decide)]
      have hshape : ('#' :: '#' :: '#' :: ' ' :: (D ++ '.' :: ' ' :: ([] : List Char)) : List Char) =
          ((('#' :: '#' :: '#' :: ' ' :: D) ++ ['.']) ++ [' ']) := by simp
      rw [hshape, rstripChars_append_ws _ ' ' (by decide),
        rstripChars_append_not_ws _ '.' (by decide)]
      simp
    rw [normalizeSectionTitle, htrim]
    rw [show startsWith3Hash ('#' :: '#' :: '#' :: ' ' :: (D ++ ['.'])) = true from rfl]
    simp only [if_pos]
    rw [show ('#' :: '#' :: '#' :: ' ' :: (D ++ ['.'])).drop 3 = ' ' :: (D ++ ['.']) from rfl]
    have htrim2 : trimChars (' ' :: (D ++ ['.'])) = D ++ ['.'] := by
      rw [trimChars, List.dropWhile_cons, if_pos (by decide)]
      rw [hDe, List.cons_append, List.dropWhile_cons, if_neg (by simp [hdws]),
        ← List.cons_append, ← hDe]
      exact rstripChars_append_not_ws D '.' (by decide)
    rw [htrim2]
    have hdnd : dropNumberDot (D ++ ['.']) = [] := by
      rw [dropNumberDot,
        show (D ++ ['.'] : List Char) = D ++ '.' :: [] from rfl,
        takeWhile_append_all Char.isDigit D '.' [] hDdig (by decide),
        if_neg hD, List.drop_left]
      rfl
    rw [hdnd]
    rfl
  | cons x xs =>
    have hne : (x :: xs : List Char) ≠ [] := by simp
    have h1 : rstripChars (' ' :: x :: xs) = ' ' :: x :: xs :=
      rstripChars_cons_of_invariant _ _ hne hXr
    have h2 : rstripChars ('.' :: ' ' :: x :: xs) = '.' :: ' ' :: x :: xs :=
      rstripChars_cons_of_invariant _ _ (by simp) h1
    have htrim : trimChars ('#' :: '#' :: '#' :: ' ' :: (D ++ '.' :: ' ' :: x :: xs)) =
        '#' :: '#' :: '#' :: ' ' :: (D ++ '.' :: ' ' :: x :: xs) := by
      rw [trimChars, List.dropWhile_cons, if_neg (by decide)]
      have hshape : ('#' :: '#' :: '#' :: ' ' :: (D ++ '.' :: ' ' :: x :: xs) : List Char) =
          (('#' :: '#' :: '#' :: ' ' :: D) ++ ('.' :: ' ' :: x :: xs)) := by simp
      rw [hshape, rstripChars_append_of_invariant _ _ (by simp) h2]
    rw [normalizeSectionTitle, htrim]
    rw [show startsWith3Hash ('#' :: '#' :: '#' :: ' ' :: (D ++ '.' :: ' ' :: x :: xs)) = true
      from rfl]
    simp only [if_pos]
    rw [show ('#' :: '#' :: '#' :: ' ' :: (D ++ '.' :: ' ' :: x :: xs)).drop 3 =
      ' ' :: (D ++ '.' :: ' ' :: x :: xs) from rfl]
    have htrim2 : trimChars (' ' :: (D ++ '.' :: ' ' :: x :: xs)) =
        D ++ '.' :: ' ' :: x :: xs := by
      rw [trimChars, List.dropWhile_cons, if_pos (by decide)]
      rw [hDe, List.cons_append, List.dropWhile_cons, if_neg (by simp [hdws]),
        ← List.cons_append, ← hDe]
      exact rstripChars_append_of_invariant D _ (by simp) h2
    rw [htrim2]
    have hdnd : dropNumberDot (D ++ '.' :: ' ' :: x :: xs) =
        List.dropWhile isPyWS (' ' :: x :: xs) := by
      rw [dropNumberDot,
        takeWhile_append_all Char.isDigit D '.' (' ' :: x :: xs) hDdig (by decide),
        if_neg hD, List.drop_left]
      rfl
    rw [hdnd, List.dropWhile_cons, if_pos (by decide), hXdrop, hX]

theorem normalizeSectionTitle_trimChars (t : List Char) :
    normalizeSectionTitle (trimChars t) = normalizeSectionTitle t := by
  simp only [normalizeSectionTitle, trimChars_trimChars]

theorem trimChars_normalizeSectionTitle (t : List Char) :
    trimChars (normalizeSectionTitle t) = normalizeSectionTitle t := by
  simp only [normalizeSectionTitle]
  exact trimChars_trimChars _

theorem isHeaderLine_rebuilt (D X : List Char) (hD : D ≠ [])
    (hDall : ∀ c ∈ D, c.isDigit = true ∧ isPyWS c = false ∧ c ≠ '.' ∧ c ≠ '\n' ∧ c ≠ '#')
    (hX : trimChars X = X) :
    isHeaderLine ('#' :: '#' :: '#' :: ' ' :: (D ++ '.' :: ' ' :: X)) = true := by
  have hXr : rstripChars X = X := by
    conv_lhs => rw [← hX, trimChars_rstripChars]
    exact hX
  rw [isHeaderLine]
  cases X with
  | nil =>
    have htrim : trimChars ('#' :: '#' :: '#' :: ' ' :: (D ++ '.' :: ' ' :: ([] : List Char))) =
        '#' :: '#' :: '#' :: ' ' :: (D ++ ['.']) := by
      rw [trimChars, List.dropWhile_cons, if_neg (by decide)]
      have hshape : ('#' :: '#' :: '#' :: ' ' :: (D ++ '.' :: ' ' :: ([] : List Char)) : List Char) =
          ((('#' :: '#' :: '#' :: ' ' :: D) ++ ['.']) ++ [' ']) := by simp
      rw [hshape, rstripChars_append_ws _ ' ' (by decide),
        rstripChars_append_not_ws _ '.' (by decide)]
      simp
    rw [htrim]
    rfl
  | cons x xs =>
    have h1 : rstripChars (' ' :: x :: xs) = ' ' :: x :: xs :=
      rstripChars_cons_of_invariant _ _ (by simp) hXr
    have h2 : rstripChars ('.' :: ' ' :: x :: xs) = '.' :: ' ' :: x :: xs :=
      rstripChars_cons_of_invariant _ _ (by simp) h1
    have htrim : trimChars ('#' :: '#' :: '#' :: ' ' :: (D ++ '.' :: ' ' :: x :: xs)) =
        '#' :: '#' :: '#' :: ' ' :: (D ++ '.' :: ' ' :: x :: xs) := by
      rw [trimChars, List.dropWhile_cons, if_neg (by decide)]
      have hshape : ('#' :: '#' :: '#' :: ' ' :: (D ++ '.' :: ' ' :: x :: xs) : List Char) =
          (('#' :: '#' :: '#' :: ' ' :: D) ++ ('.' :: ' ' :: x :: xs)) := by simp
      rw [hshape, rstripChars_append_of_invariant _ _ (by simp) h2]
    rw [htrim]
    rfl

theorem isHeaderLine_renumbered (n : Nat) (X : List Char) (hX : trimChars X = X) :
    isHeaderLine ('#' :: '#' :: '#' :: ' ' :: (natDigits (n + 1) ++ '.' :: ' ' :: X)) = true :=
  isHeaderLine_rebuilt (natDigits (n + 1)) X (natDigits_ne_nil _) (natDigits_props _) hX

theorem normalizeSectionTitle_renumbered (n : Nat) (X : List Char) (hX : trimChars X = X) :
    normalizeSectionTitle
      ('#' :: '#' :: '#' :: ' ' :: (natDigits (n + 1) ++ '.' :: ' ' :: X)) = X :=
  normalizeSectionTitle_rebuilt (natDigits (n + 1)) X (natDigits_ne_nil _) (natDigits_props _) hX

theorem renumberLinesAux_idem (lines : List (List Char)) :
    ∀ n, renumberLinesAux n (renumberLinesAux n lines) = renumberLinesAux n lines := by
  induction lines with
  | nil => intro n; rfl
  | cons l rest ih =>
    intro n
    by_cases hh : startsWith3Hash (trimChars l) = true
    · rw [renumberLinesAux, if_pos hh]
      have hXt : trimChars (normalizeSectionTitle (trimChars l)) =
          normalizeSectionTitle (trimChars l) := trimChars_normalizeSectionTitle _
      rw [renumberLinesAux,
        if_pos (show startsWith3Hash (trimChars ('#' :: '#' :: '#' :: ' ' ::
          (natDigits (n + 1) ++ '.' :: ' ' :: normalizeSectionTitle (trimChars l)))) = true
          from isHeaderLine_renumbered n _ hXt)]
      rw [normalizeSectionTitle_trimChars, normalizeSectionTitle_renumbered n _ hXt]
      rw [ih (n + 1)]
    · rw [renumberLinesAux, if_neg hh, renumberLinesAux, if_neg hh, ih n]

theorem renumberLinesAux_headers (lines : List (List Char)) :
    ∀ n, (renumberLinesAux n lines).filterMap
        (fun l => if isHeaderLine l then some l else none) =
        numberedHeaders n (headerTitles lines) := by
  induction lines with
  | nil => intro n; rfl
  | cons l rest ih =>
    intro n
    by_cases hh : startsWith3Hash (trimChars l) = true
    · rw [renumberLinesAux, if_pos hh]
      have hXt : trimChars (normalizeSectionTitle (trimChars l)) =
          normalizeSectionTitle (trimChars l) := trimChars_normalizeSectionTitle _
      rw [List.filterMap_cons]
      rw [show (if isHeaderLine ('#' :: '#' :: '#' :: ' ' ::
          (natDigits (n + 1) ++ '.' :: ' ' :: normalizeSectionTitle (trimChars l))) then
          some ('#' :: '#' :: '#' :: ' ' ::
            (natDigits (n + 1) ++ '.' :: ' ' :: normalizeSectionTitle (trimChars l)))
          else none) = some ('#' :: '#' :: '#' :: ' ' ::
            (natDigits (n + 1) ++ '.' :: ' ' :: normalizeSectionTitle (trimChars l))) from
        if_pos (by exact_mod_cast isHeaderLine_renumbered n _ hXt)]
      rw [headerTitles, List.filterMap_cons, if_pos (by exact_mod_cast hh),
        numberedHeaders]
      rw [ih (n + 1)]
      rfl
    · rw [renumberLinesAux, if_neg hh, List.filterMap_cons,
        if_neg (by simp [isHeaderLine, hh]),
        headerTitles, List.filterMap_cons, if_neg (by simp [isHeaderLine, hh]), ih n]
      rfl

theorem headerTitles_renumberLinesAux (lines : List (List Char)) :
    ∀ n, headerTitles (renumberLinesAux n lines) = headerTitles lines := by
  induction lines with
  | nil => intro n; rfl
  | cons l rest ih =>
    intro n
    by_cases hh : startsWith3Hash (trimChars l) = true
    · rw [renumberLinesAux, if_pos hh]
      have hXt : trimChars (normalizeSectionTitle (trimChars l)) =
          normalizeSectionTitle (trimChars l) := trimChars_normalizeSectionTitle _
      rw [headerTitles, List.filterMap_cons,
        if_pos (by exact_mod_cast isHeaderLine_renumbered n _ hXt)]
      rw [normalizeSectionTitle_trimChars, normalizeSectionTitle_renumbered n _ hXt]
      rw [headerTitles, List.filterMap_cons, if_pos (by exact_mod_cast hh)]
      have := ih (n + 1)
      rw [headerTitles] at this
      rw [this]
      rfl
    · rw [renumberLinesAux, if_neg hh]
      rw [headerTitles, List.filterMap_cons, if_neg (by simp [isHeaderLine, hh])]
      rw [headerTitles, List.filterMap_cons, if_neg (by simp [isHeaderLine, hh])]
      have := ih n
      rw [headerTitles] at this
      rw [this]
      rfl

/-! ### Splitting and joining lines -/

theorem mem_rstripChars {x : Char} : ∀ {l : List Char}, x ∈ rstripChars l → x ∈ l := by
  intro l
  induction l with
  | nil => intro h; simpa [rstripChars] using h
  | cons a l ih =>
    intro h
    rw [rstripChars] at h
    by_cases hc : rstripChars l = [] ∧ isPyWS a = true
    · rw [if_pos (by simpa using hc)] at h
      simp at h
    · rw [if_neg (by simpa using hc)] at h
      rcases List.mem_cons.mp h with h | h
      · simp [h]
      · simp [ih h]

theorem mem_trimChars {x : Char} {l : List Char} (h : x ∈ trimChars l) : x ∈ l :=
  (List.dropWhile_suffix isPyWS).mem (mem_rstripChars h)

theorem mem_dropNumberDot {x : Char} {cs : List Char} (h : x ∈ dropNumberDot cs) :
    x ∈ cs := by
  rw [dropNumberDot] at h
  by_cases hds : cs.takeWhile Char.isDigit = []
  · rwa [if_pos hds] at h
  · rw [if_neg hds] at h
    cases hdrop : cs.drop (cs.takeWhile Char.isDigit).length with
    | nil => rwa [hdrop] at h
    | cons c rest =>
      rw [hdrop] at h
      dsimp only at h
      by_cases hc : c = '.'
      · rw [if_pos hc] at h
        have : x ∈ c :: rest := List.mem_cons_of_mem c ((List.dropWhile_suffix isPyWS).mem h)
        rw [← hdrop] at this
        exact List.mem_of_mem_drop this
      · rwa [if_neg hc] at h

theorem mem_normalizeSectionTitle {x : Char} {t : List Char}
    (h : x ∈ normalizeSectionTitle t) : x ∈ t := by
  rw [normalizeSectionTitle] at h
  have h1 := mem_dropNumberDot (mem_trimChars h)
  by_cases hh : startsWith3Hash (trimChars t) = true
  · rw [if_pos hh] at h1
    exact mem_trimChars (List.mem_of_mem_drop (mem_trimChars h1))
  · rw [if_neg hh] at h1
    exact mem_trimChars h1

theorem splitLinesAux_no_newline :
    ∀ (cs acc : List Char), '\n' ∉ acc → ∀ l ∈ splitLinesAux cs acc, '\n' ∉ l := by
  intro cs
  induction cs with
  | nil =>
    intro acc hacc l hl
    simp only [splitLinesAux, List.mem_singleton] at hl
    subst hl
    simpa using hacc
  | cons c rest ih =>
    intro acc hacc l hl
    rw [splitLinesAux] at hl
    by_cases hc : c = '\n'
    · rw [if_pos hc] at hl
      by_cases hrest : rest = []
      · rw [if_pos hrest] at hl
        simp only [List.mem_singleton] at hl
        subst hl
        simpa using hacc
      · rw [if_neg hrest] at hl
        rcases List.mem_cons.mp hl with hl | hl
        · subst hl
          simpa using hacc
        · exact ih [] (by simp) l hl
    · rw [if_neg hc] at hl
      exact ih (c :: acc) (by
        intro hmem
        rcases List.mem_cons.mp hmem with h | h
        · exact hc h.symm
        · exact hacc h) l hl

theorem pySplitlines_no_newline (cs : List Char) :
    ∀ l ∈ pySplitlines cs, '\n' ∉ l := by
  intro l hl
  by_cases hcs : cs = []
  · simp [pySplitlines, hcs] at hl
  · rw [pySplitlines, if_neg hcs] at hl
    exact splitLinesAux_no_newline cs [] (by simp) l hl

theorem splitLinesAux_no_newline_eq (A : List Char) :
    ∀ acc : List Char, '\n' ∉ A → splitLinesAux A acc = [acc.reverse ++ A] := by
  induction A with
  | nil => intro acc _; simp [splitLinesAux]
  | cons a A ih =>
    intro acc hA
    rw [splitLinesAux, if_neg (by
      intro h
      exact hA (h ▸ List.mem_cons_self a A))]
    rw [ih (a :: acc) (fun h => hA (List.mem_cons_of_mem a h))]
    simp

theorem splitLinesAux_append_newline (A : List Char) :
    ∀ (B acc : List Char), '\n' ∉ A →
      splitLinesAux (A ++ '\n' :: B) acc =
        (acc.reverse ++ A) :: (if B = [] then [] else splitLinesAux B []) := by
  induction A with
  | nil =>
    intro B acc _
    rw [List.nil_append, splitLinesAux, if_pos rfl]
    by_cases hB : B = []
    · rw [if_pos hB, hB]
      simp
    · rw [if_neg hB, if_neg hB]
      simp
  | cons a A ih =>
    intro B acc hA
    rw [List.cons_append, splitLinesAux, if_neg (by
      intro h
      exact hA (h ▸ List.mem_cons_self a A))]
    rw [ih B (a :: acc) (fun h => hA (List.mem_cons_of_mem a h))]
    simp

theorem intercalate_cons_cons_newline (x y : List Char) (t : List (List Char)) :
    List.intercalate ['\n'] (x :: y :: t) =
      x ++ '\n' :: List.intercalate ['\n'] (y :: t) := by
  simp only [List.intercalate, List.intersperse_cons_cons, List.flatten_cons]
  simp

theorem intercalate_newline_nil {x : List Char} {t : List (List Char)}
    (h : List.intercalate ['\n'] (x :: t) = []) : x = [] ∧ t = [] := by
  cases t with
  | nil =>
    simp [List.intercalate] at h
    exact ⟨h, rfl⟩
  | cons y t =>
    rw [intercalate_cons_cons_newline] at h
    simp at h

theorem pySplitlines_intercalate_filterMap {β : Type} (f : List Char → Option β)
    (hf : f [] = none) :
    ∀ ls : List (List Char), (∀ l ∈ ls, '\n' ∉ l) →
      (pySplitlines (List.intercalate ['\n'] ls)).filterMap f = ls.filterMap f := by
  intro ls
  induction ls with
  | nil => intro _; simp [List.intercalate, pySplitlines]
  | cons l rest ih =>
    intro hnl
    cases rest with
    | nil =>
      rw [show List.intercalate ['\n'] [l] = l by simp [List.intercalate]]
      by_cases hl : l = []
      · simp [pySplitlines, hl, hf]
      · rw [pySplitlines, if_neg hl]
        rw [splitLinesAux_no_newline_eq l [] (hnl l (by simp))]
        simp
    | cons l2 rest2 =>
      have hinter := intercalate_cons_cons_newline l l2 rest2
      rw [hinter]
      have hne : l ++ '\n' :: List.intercalate ['\n'] (l2 :: rest2) ≠ [] := by simp
      rw [pySplitlines, if_neg hne]
      rw [splitLinesAux_append_newline l _ [] (hnl l (by simp))]
      by_cases hB : List.intercalate ['\n'] (l2 :: rest2) = []
      · rw [if_pos hB]
        obtain ⟨h2, h3⟩ := intercalate_newline_nil hB
        subst h2
        subst h3
        simp [List.filterMap_cons, hf]
      · rw [if_neg hB]
        have hsplit : splitLinesAux (List.intercalate ['\n'] (l2 :: rest2)) [] =
            pySplitlines (List.intercalate ['\n'] (l2 :: rest2)) := by
          rw [pySplitlines, if_neg hB]
        rw [hsplit]
        rw [List.filterMap_cons, List.filterMap_cons]
        rw [ih (fun x hx => hnl x (List.mem_cons_of_mem l hx))]
        simp

theorem no_newline_rebuilt (n : Nat) (X : List Char) (hX : '\n' ∉ X) :
    '\n' ∉ ('#' :: '#' :: '#' :: ' ' :: (natDigits (n + 1) ++ '.' :: ' ' :: X)) := by
  intro hmem
  rcases List.mem_cons.mp hmem with h | hmem
  · exact absurd h (by decide)
  rcases List.mem_cons.mp hmem with h | hmem
  · exact absurd h (by decide)
  rcases List.mem_cons.mp hmem with h | hmem
  · exact absurd h (by decide)
  rcases List.mem_cons.mp hmem with h | hmem
  · exact absurd h (by decide)
  rcases List.mem_append.mp hmem with h | hmem
  · exact ((natDigits_props (n + 1) '\n' h).2.2.2.1) rfl
  rcases List.mem_cons.mp hmem with h | hmem
  · exact absurd h (by decide)
  rcases List.mem_cons.mp hmem with h | hmem
  · exact absurd h (by decide)
  exact hX hmem

theorem renumberLinesAux_no_newline (lines : List (List Char)) :
    ∀ n, (∀ l ∈ lines, '\n' ∉ l) →
      ∀ l' ∈ renumberLinesAux n lines, '\n' ∉ l' := by
  induction lines with
  | nil => intro n _ l' hl'; simp [renumberLinesAux] at hl'
  | cons l rest ih =>
    intro n hnl l' hl'
    rw [renumberLinesAux] at hl'
    by_cases hh : startsWith3Hash (trimChars l) = true
    · rw [if_pos hh] at hl'
      rcases List.mem_cons.mp hl' with hl' | hl'
      · subst hl'
        exact no_newline_rebuilt n _ (fun h =>
          hnl l (by simp) (mem_trimChars (mem_normalizeSectionTitle h)))
      · exact ih (n + 1) (fun x hx => hnl x (List.mem_cons_of_mem l hx)) l' hl'
    · rw [if_neg hh] at hl'
      rcases List.mem_cons.mp hl' with hl' | hl'
      · subst hl'
        exact hnl _ (by simp)
      · exact ih n (fun x hx => hnl x (List.mem_cons_of_mem l hx)) l' hl'

/-- C9: `_renumber_sections` renumbers all section titles sequentially
from 1 in document order, and the renumbering is idempotent.
(i) The header lines of the output are exactly `### 1. t₁`,
`### 2. t₂`, ... for the input's normalized titles, in document order.
(ii) Renumbering the output again yields the same header lines (the
same numbering).  (iii) A template whose three sections carry the
numbers `[3, 7, 1]` is renumbered to `[1, 2, 3]` with titles in the
same relative order, and (iv) renumbering that output again returns it
byte-identically. -/
theorem renumber_sections_sequential_idempotent :
    (∀ t : String, headerLinesOf (renumber_sections t) =
      numberedHeaders 0 (headerTitles (pySplitlines t.data))) ∧
    (∀ t : String, headerLinesOf (renumber_sections (renumber_sections t)) =
      headerLinesOf (renumber_sections t)) ∧
    renumber_sections "### 3. A\nbody\n### 7. B\n### 1. C" =
      "### 1. A\nbody\n### 2. B\n### 3. C" ∧
    renumber_sections (renumber_sections "### 3. A\nbody\n### 7. B\n### 1. C") =
      renumber_sections "### 3. A\nbody\n### 7. B\n### 1. C" := by
  have hf0 : (fun l => if isHeaderLine l then some l else none) ([] : List Char) = none := by
    decide
  have hg0 : (fun l => if isHeaderLine l then
      some (normalizeSectionTitle (trimChars l)) else none) ([] : List Char) = none := by
    decide
  have hmain : ∀ t : String, headerLinesOf (renumber_sections t) =
      numberedHeaders 0 (headerTitles (pySplitlines t.data)) := by
    intro t
    rw [headerLinesOf, renumber_sections]
    rw [show (⟨List.intercalate ['\n'] (renumberLinesAux 0 (pySplitlines t.data))⟩ :
        String).data = List.intercalate ['\n'] (renumberLinesAux 0 (pySplitlines t.data))
      from rfl]
    rw [pySplitlines_intercalate_filterMap _ hf0 _
      (renumberLinesAux_no_newline _ 0 (pySplitlines_no_newline t.data))]
    exact renumberLinesAux_headers _ 0
  refine ⟨hmain, ?_, by decide, by decide⟩
  intro t
  rw [hmain (renumber_sections t), hmain t]
  have htitles : headerTitles (pySplitlines (renumber_sections t).data) =
      headerTitles (pySplitlines t.data) := by
    rw [renumber_sections]
    rw [show (⟨List.intercalate ['\n'] (renumberLinesAux 0 (pySplitlines t.data))⟩ :
        String).data = List.intercalate ['\n'] (renumberLinesAux 0 (pySplitlines t.data))
      from rfl]
    rw [show headerTitles (pySplitlines (List.intercalate ['\n']
        (renumberLinesAux 0 (pySplitlines t.data)))) =
      (pySplitlines (List.intercalate ['\n']
        (renumberLinesAux 0 (pySplitlines t.data)))).filterMap
        (fun l => if isHeaderLine l then
          some (normalizeSectionTitle (trimChars l)) else none) from rfl]
    rw [pySplitlines_intercalate_filterMap _ hg0 _
      (renumberLinesAux_no_newline _ 0 (pySplitlines_no_newline t.data))]
    exact headerTitles_renumberLinesAux _ 0
  rw [htitles]

/-! ### Missing terminology section (claim C10) -/

theorem findBoundariesAux_none (target : List Char) (total : Nat)
    (lines : List (List Char)) :
    ∀ pos : Nat,
      (∀ l ∈ lines, ¬(startsWith3Hash (trimChars l) = true ∧
        normalizeSectionTitle (trimChars l) = target)) →
      findBoundariesAux target total lines pos none = none := by
  induction lines with
  | nil => intro pos _; rfl
  | cons l rest ih =>
    intro pos habs
    rw [findBoundariesAux]
    by_cases hh : startsWith3Hash (trimChars l) = true
    · simp only [hh, if_pos]
      rw [if_neg (fun heq => habs l (by simp) ⟨hh, heq⟩)]
      exact ih _ (fun x hx => habs x (List.mem_cons_of_mem l hx))
    · rw [if_neg hh]
      exact ih _ (fun x hx => habs x (List.mem_cons_of_mem l hx))

/-- C10: for every template in which no line is a `###` header whose
normalized title equals the designated terminology section title,
`inject_memory_into_template` succeeds without any exception path,
returns the template unmodified, and reports the absence through the
non-fatal warning flag. -/
theorem inject_memory_missing_section (template : String) (memory : GlobalMemory)
    (habsent : ∀ l ∈ splitKeepEnds template.data,
      ¬(startsWith3Hash (trimChars l) = true ∧
        normalizeSectionTitle (trimChars l) = TARGET_SECTION.data)) :
    inject_memory_into_template template memory = (template, true) := by
  have hfind : find_section_boundaries template.data TARGET_SECTION.data = none := by
    rw [find_section_boundaries]
    exact findBoundariesAux_none _ _ _ 0 habsent
  rw [inject_memory_into_template, hfind]

/-- C10 witness: a template with no terminology section (and a non-empty
memory) is returned unmodified with the warning flag set. -/
theorem inject_memory_missing_section_witness :
    inject_memory_into_template "You are an editor.\nFix the subtitles."
      ⟨[⟨"Chris", "克里斯"⟩], [⟨"AJ", "AJ", "person", 90, []⟩], "tone", "plot"⟩ =
      ("You are an editor.\nFix the subtitles.", true) :=
  inject_memory_missing_section _ _ (by decide)

/-! ### The size estimate and the injected prompt use different
renderings (claim C7) -/

/-- C7: `estimate_memory_tokens` tokenizes `build_memory_section(memory)`
(the legacy rendering, which includes the style notes), but the system
prompt actually sent for a batch is built by
`inject_memory_into_template`, which injects only terminology.  At the
recorded failing input — a memory whose only content is a style note,
with a template that contains the designated terminology section — the
text whose token count the estimate uses does not occur anywhere in the
prompt that is sent, so the estimate is derived from a different
rendering than what is sent. -/
theorem estimate_rendering_differs_from_sent_prompt :
    ∀ est : String → Nat,
      estimate_memory_tokens ⟨[], [], "Keep a casual tone", ""⟩ est =
        est "\n\n**Style Guidelines:**\nKeep a casual tone" ∧
      ¬ List.IsInfix "\n\n**Style Guidelines:**\nKeep a casual tone".data
        (inject_memory_into_template
          "### 1. Role\nYou fix subtitles.\n### 2. User Terminology (Authoritative Glossary)\n- Chris: 克里斯\n### 3. Output\nReturn JSON only."
          ⟨[], [], "Keep a casual tone", ""⟩).1.data := by
  intro est
  refine ⟨?_, by decide⟩
  rw [estimate_memory_tokens,
    show build_memory_section ⟨[], [], "Keep a casual tone", ""⟩ =
      "\n\n**Style Guidelines:**\nKeep a casual tone" from by decide]

end SubRefine
